import Mathlib

/-!
Shallow embedding of `src/E3_Streamer/player.py` (the `Player` class).

The pipeline: a producer (`Player.run` driving `fetch_video`) pulls one
AudioChunk and one FrameBatch per second of the video and pushes them onto
two thread-safe queues; an audio consumer (`write_audio_stream`) and a video
consumer (`write_video_stream`) busy-wait until their queue holds
`BUFFER_SIZE = 8` items, then drain them to the audio device / display.

Modelling conventions:
* video frames are abstract tokens (`Frame := Nat`); the PIL resize and the
  super-resolution networks are opaque functions passed as parameters;
* an audio chunk carries its numpy dtype as a tag plus an abstract sample
  list, so `astype("float32")` is visible as a retagging operation;
* fallible Python code (`next` on an exhausted iterator raising
  `StopIteration`, a super-resolution failure, `queue.get(timeout=10)`
  raising `queue.Empty`) is modelled with `Except Err`;
* `multiprocessing.pool.ThreadPool(30).map` is modelled with an explicit,
  arbitrary completion order (`sched`): each completed task writes its result
  into the slot of its input index, and `map` returns only after every task
  has completed (the pool joins its workers), which is expressed by letting
  every index complete at the end of any schedule;
* the buffer-threshold behaviour of the consumers is a small transition
  system (`CStep`/`Reach`) whose atomic steps are the producer's `put`, the
  consumer's successful poll of `qsize() >= BUFFER_SIZE`, a `get`, and a
  sink write;
* real-time quantities (`fps`, `duration`, `tolerance`, sleep intervals and
  `get` timeouts) are rationals; Python `int()` truncation is `pyInt`.
-/

/-- A decoded video frame, abstract. -/
abbrev Frame := Nat

/-- numpy dtypes that occur on the audio path. -/
inductive NpDType where
  | float32
  | float64
deriving DecidableEq, Repr

/-- One second of interleaved audio samples, as yielded by
`self.audio.iter_chunks(int(self.audio.fps))`: a sample payload tagged with
its numpy dtype. Sample values are abstract integers. -/
structure AudioChunk where
  dtype : NpDType
  samples : List Int
deriving DecidableEq, Repr

/-- One second of (optionally super-resolved) video frames, in display
order: the list returned by `Player.video_second`. -/
abbrev FrameBatch := List Frame

/-- The exceptions that cross the pipeline's function boundaries. -/
inductive Err where
  /-- `StopIteration` from `next` on an exhausted iterator. -/
  | stopIteration
  /-- a super-resolution call failed inside the thread pool. -/
  | inferenceError
  /-- `queue.Empty` raised by `queue.get(timeout=10)`. -/
  | queueEmpty
deriving DecidableEq, Repr

/-- `BUFFER_SIZE = 8` (player.py line 18). -/
def BUFFER_SIZE : Nat := 8

/-- Python `int()` on a rational: truncation toward zero. -/
def pyInt (q : ℚ) : ℤ :=
  if 0 ≤ q then ⌊q⌋ else ⌈q⌉

/-- `int(self.video.fps)`: the number of frames fetched per batch. -/
def framesPerBatch (fps : ℚ) : Nat :=
  (pyInt fps).toNat

/-- `int(self.video.duration)`: the number of producer iterations. -/
def runIterations (duration : ℚ) : Nat :=
  (pyInt duration).toNat

/-- The remaining, lazily-consumed media streams: `self.audio_iterator`
and `self.video_iterator`. -/
structure SourceState where
  audioStream : List AudioChunk
  videoStream : List Frame
deriving DecidableEq, Repr

/-- The contents of `self.audio_queue` and `self.video_queue`
(FIFO: enqueues append on the right). -/
structure Queues where
  audioQ : List AudioChunk
  videoQ : List FrameBatch
deriving DecidableEq, Repr

/-- An enqueue event of the producer, in program order. -/
inductive Ev where
  | putAudio
  | putVideo
deriving DecidableEq, Repr

/-- The `for _ in range(int(self.video.fps)): frame = next(self.video_iterator)`
loop of `Player.video_second`: take exactly `n` frames off the stream, or
raise `StopIteration` if it runs out. -/
def takeFrames : Nat → List Frame → Except Err (List Frame × List Frame)
  | 0, s => .ok ([], s)
  | _ + 1, [] => .error .stopIteration
  | n + 1, f :: s =>
    match takeFrames n s with
    | .error e => .error e
    | .ok (fs, rest) => .ok (f :: fs, rest)

/-- One worker-pool execution: `sched` is the order in which the per-frame
tasks complete; each completion writes `g i` into result slot `i`. -/
def runSched (g : Nat → Frame) : List Nat → (Nat → Option Frame) → Nat → Option Frame
  | [], slots => slots
  | i :: rest, slots =>
    runSched g rest (fun j => if j = i then some (g i) else slots j)

/-- `with multiprocessing.pool.ThreadPool(30) as pool: pool.map(f, xs)`.
If any task raises, the pool re-raises and no result list is produced.
Otherwise every task completes (the pool joins all workers before `map`
returns, so every index completes even under an adversarial schedule
`sched`, modelled by `sched ++ List.range xs.length`), and the results are
read out of the slots in input-index order. -/
def poolMap (f : Frame → Except Err Frame) (xs : List Frame) (sched : List Nat) :
    Except Err (List Frame) :=
  match xs.findSome? (fun x => match f x with | .error e => some e | .ok _ => none) with
  | some e => .error e
  | none =>
    .ok ((List.range xs.length).map fun j =>
      (runSched (fun i => match f (xs.getD i 0) with | .ok v => v | .error _ => 0)
        (sched ++ List.range xs.length) (fun _ => none) j).getD 0)

/-- `Player.video_second`: fetch `int(fps)` frames, preprocess each
(the PIL bicubic resize to 320x180, float cast and `expand_dims`, abstracted
as `pre`), then run the selected super-resolution function over the batch in
the 30-worker thread pool, preserving input order. Returns the batch and the
remaining video stream. -/
def video_second (nFrames : Nat) (pre : Frame → Frame)
    (enhance : Frame → Except Err Frame) (sched : List Nat)
    (videoStream : List Frame) : Except Err (FrameBatch × List Frame) :=
  match takeFrames nFrames videoStream with
  | .error e => .error e
  | .ok (raw, rest) =>
    match poolMap enhance (raw.map pre) sched with
    | .error e => .error e
    | .ok batch => .ok (batch, rest)

/-- `next(self.audio_iterator)`. -/
def nextAudio : List AudioChunk → Except Err (AudioChunk × List AudioChunk)
  | [] => .error .stopIteration
  | a :: rest => .ok (a, rest)

/-- `Player.fetch_video`: pull the next AudioChunk, build the next
FrameBatch, then `audio_queue.put(audio)` followed by
`video_queue.put(video)`. Both puts happen after both pulls succeeded, so a
failing iteration enqueues nothing and emits no events. -/
def fetch_video (nFrames : Nat) (pre : Frame → Frame)
    (enhance : Frame → Except Err Frame) (sched : List Nat)
    (src : SourceState) (qs : Queues) :
    Except Err (SourceState × Queues × List Ev) :=
  match nextAudio src.audioStream with
  | .error e => .error e
  | .ok (audio, audioRest) =>
    match video_second nFrames pre enhance sched src.videoStream with
    | .error e => .error e
    | .ok (batch, videoRest) =>
      .ok (⟨audioRest, videoRest⟩,
           ⟨qs.audioQ ++ [audio], qs.videoQ ++ [batch]⟩,
           [.putAudio, .putVideo])

/-- The producer loop of `Player.run`:
`for _ in range(int(self.video.duration)): self.fetch_video()`.
Returns the per-iteration enqueue traces of the completed iterations and
either the final source/queue state or the exception that aborted the loop.
`scheds k` is the pool completion order of iteration `k`. -/
def producerLoop (nFrames : Nat) (pre : Frame → Frame)
    (enhance : Frame → Except Err Frame) (scheds : Nat → List Nat) :
    Nat → SourceState → Queues →
    List (List Ev) × Except Err (SourceState × Queues)
  | 0, src, qs => ([], .ok (src, qs))
  | n + 1, src, qs =>
    match fetch_video nFrames pre enhance (scheds 0) src qs with
    | .error e => ([], .error e)
    | .ok (src', qs', evs) =>
      let (rest, out) := producerLoop nFrames pre enhance (fun k => scheds (k + 1)) n src' qs'
      (evs :: rest, out)

/-- `self.running` together with a count of how many times the guarded
assignment `self.running = True` actually fired. -/
structure RunCtl where
  running : Bool
  starts : Nat
deriving DecidableEq, Repr

/-- `with self.lock: if not self.running: self.running = True`
(the only write to `self.running` anywhere in the program after
`__init__` sets it to `False`). -/
def guardedSet (r : RunCtl) : RunCtl :=
  if r.running then r else ⟨true, r.starts + 1⟩

/-- The observable outcome of one `Player.run()` call. -/
structure RunResult where
  afterFirstSet : RunCtl
  afterSecondSet : RunCtl
  traces : List (List Ev)
  outcome : Except Err (SourceState × Queues)
deriving Repr

/-- `Player.run`: guarded start-set, start the two consumer threads
(modelled separately by `CStep`/`consumeLoop`), drive the producer for
`int(self.video.duration)` iterations, guarded set again, join. -/
def Player.run (fps duration : ℚ) (pre : Frame → Frame)
    (enhance : Frame → Except Err Frame) (scheds : Nat → List Nat)
    (src : SourceState) (qs : Queues) (r0 : RunCtl) : RunResult :=
  let r1 := guardedSet r0
  let res :=
    producerLoop (framesPerBatch fps) pre enhance scheds (runIterations duration) src qs
  let r2 := guardedSet r1
  ⟨r1, r2, res.1, res.2⟩

/-- The state of one consumer thread and its queue, counting events.
`produced` counts `put` calls on this queue, `depth` is `qsize()`,
`draining` records that the busy-wait `while qsize() < BUFFER_SIZE: continue`
has exited, `pending` counts items dequeued but not yet written to the sink,
`dequeues` counts successful `get` calls, `writes` counts sink
`write`/`present` calls. -/
structure ConsState where
  produced : Nat
  depth : Nat
  draining : Bool
  pending : Nat
  dequeues : Nat
  writes : Nat
deriving DecidableEq, Repr

/-- The atomic steps of one producer/consumer pair on one queue, as in
`write_audio_stream`/`write_video_stream` interleaved with `fetch_video`:
the producer enqueues; the consumer leaves its busy-wait only on observing
`qsize() >= BUFFER_SIZE`; a `get` succeeds only after the busy-wait has
exited; the sink write happens after the `get` that delivered the item. -/
inductive CStep : ConsState → ConsState → Prop where
  | produce (s : ConsState) :
      CStep s ⟨s.produced + 1, s.depth + 1, s.draining, s.pending, s.dequeues, s.writes⟩
  | passGate (s : ConsState) (hd : s.draining = false) (hq : BUFFER_SIZE ≤ s.depth) :
      CStep s ⟨s.produced, s.depth, true, s.pending, s.dequeues, s.writes⟩
  | dequeue (s : ConsState) (hd : s.draining = true) (hq : 0 < s.depth) :
      CStep s ⟨s.produced, s.depth - 1, s.draining, s.pending + 1, s.dequeues + 1, s.writes⟩
  | write (s : ConsState) (hp : 0 < s.pending) :
      CStep s ⟨s.produced, s.depth, s.draining, s.pending - 1, s.dequeues, s.writes + 1⟩

/-- The initial state of a session: empty queue, consumer still in its
busy-wait, nothing dequeued or written. -/
def consInit : ConsState := ⟨0, 0, false, 0, 0, 0⟩

/-- States reachable from `consInit` under any interleaving. -/
inductive Reach : ConsState → Prop where
  | init : Reach consInit
  | step {s s' : ConsState} : Reach s → CStep s s' → Reach s'

/-- The result of one `queue.get(timeout=10)` call: an item arrived in
time, or the timeout expired and `queue.Empty` is raised. -/
inductive GetRes (α : Type) where
  | item : α → GetRes α
  | timeout
deriving DecidableEq, Repr

/-- The timeout argument of `self.audio_queue.get(timeout=10)`. -/
def audioGetTimeout : ℚ := 10

/-- The timeout argument of `self.video_queue.get(timeout=10)`. -/
def videoGetTimeout : ℚ := 10

/-- The streaming loop shared by both consumers
(`while self.running: x = q.get(timeout=10); sink(x)`), run against the
sequence of outcomes of its successive `get` calls. `self.running` is true
for the whole session (see `guardedSet`), so the loop ends only by
exception: a `timeout` raises `queue.Empty`, which the bare
`except BaseException: raise` re-raises, terminating the thread; nothing
after it is processed and there is no retry. Returns the items written to
the sink, in order, and the exception if one was raised. -/
def consumeLoop {α β : Type} (sink : α → β) :
    List (GetRes α) → List β × Option Err
  | [] => ([], none)
  | .item a :: rest =>
    let (ws, e) := consumeLoop sink rest
    (sink a :: ws, e)
  | .timeout :: _ => ([], some .queueEmpty)

/-- `audio.astype("float32")`: retag the chunk as float32 (sample payload
kept abstract). -/
def astype_float32 (a : AudioChunk) : AudioChunk :=
  ⟨.float32, a.samples⟩

/-- The data handed to `self.stream.write` for one dequeued chunk:
`audio.astype("float32").tostring()` — the chunk's samples, in order,
serialized at dtype float32. -/
def audioWrite (a : AudioChunk) : AudioChunk :=
  astype_float32 a

/-- `self.tolerance = 2.25` (player.py line 32). -/
def playerTolerance : ℚ := 2.25

/-- The per-frame interval slept by the video consumer:
`(1000 / self.video.fps - self.tolerance) / 1000`. -/
def frameInterval (fps tolerance : ℚ) : ℚ :=
  (1000 / fps - tolerance) / 1000

/-- An observable action of the video consumer's per-frame loop. -/
inductive VEv where
  /-- `screen.fill`, `screen.blit`, `pygame.display.update()` on the
  orientation-transformed frame (`np.rot90(np.fliplr(frame))`,
  abstracted into the `transform` parameter). -/
  | present : Frame → VEv
  /-- `time.sleep(d)` for `d` seconds. -/
  | sleep : ℚ → VEv
deriving DecidableEq, Repr

/-- The `for video_frame in self.video_queue.get(timeout=10): ...` body of
`write_video_stream`: for each frame of the batch, in order, present the
transformed frame, then sleep for the fixed interval. The sleep duration is
computed from `fps` and `tolerance` alone; no measured elapsed time enters. -/
def displayBatch (fps tolerance : ℚ) (transform : Frame → Frame)
    (batch : FrameBatch) : List VEv :=
  batch.flatMap fun f =>
    [.present (transform f), .sleep (frameInterval fps tolerance)]

/-! ### Helper lemmas -/

lemma takeFrames_eq_ok {n : Nat} {s fs rest : List Frame}
    (h : takeFrames n s = .ok (fs, rest)) :
    fs = s.take n ∧ rest = s.drop n ∧ fs.length = n := by
  induction n generalizing s fs rest with
  | zero =>
    simp only [takeFrames] at h
    obtain ⟨rfl, rfl⟩ := by simpa using h
    simp
  | succ n ih =>
    match s with
    | [] => simp [takeFrames] at h
    | f :: s' =>
      simp only [takeFrames] at h
      cases hrec : takeFrames n s' with
      | error e => rw [hrec] at h; simp at h
      | ok pr =>
        obtain ⟨fs', rest'⟩ := pr
        rw [hrec] at h
        simp only [Except.ok.injEq, Prod.mk.injEq] at h
        obtain ⟨rfl, rfl⟩ := h
        obtain ⟨h1, h2, h3⟩ := ih hrec
        subst h1 h2
        simp [h3]

lemma takeFrames_short {n : Nat} {s : List Frame} (h : s.length < n) :
    takeFrames n s = .error .stopIteration := by
  induction n generalizing s with
  | zero => omega
  | succ n ih =>
    match s with
    | [] => rfl
    | f :: s' =>
      simp only [takeFrames]
      rw [ih (by simpa using h)]

lemma runSched_eq (g : Nat → Frame) (sched : List Nat)
    (slots : Nat → Option Frame) (j : Nat) :
    runSched g sched slots j = if j ∈ sched then some (g j) else slots j := by
  induction sched generalizing slots with
  | nil => simp [runSched]
  | cons i rest ih =>
    simp only [runSched, ih]
    by_cases hr : j ∈ rest
    · simp [hr]
    · by_cases hj : j = i
      · subst hj; simp [hr]
      · simp [hr, hj]

lemma range_map_getD {α β : Type} (xs : List α) (h : α → β) (d : α) :
    (List.range xs.length).map (fun j => h (xs.getD j d)) = xs.map h := by
  induction xs with
  | nil => simp
  | cons x xs ih =>
    rw [List.length_cons, List.range_succ_eq_map]
    simp only [List.map_cons, List.map_map]
    refine congrArg₂ _ rfl ?_
    rw [← ih]
    rfl

lemma poolMap_total (enh : Frame → Frame) (xs : List Frame) (sched : List Nat) :
    poolMap (fun x => .ok (enh x)) xs sched = .ok (xs.map enh) := by
  have hnone : (xs.findSome? fun x =>
      match (fun x => Except.ok (ε := Err) (enh x)) x with
      | .error e => some e | .ok _ => none) = none :=
    List.findSome?_eq_none_iff.mpr (fun x _ => rfl)
  simp only [poolMap, hnone]
  refine congrArg _ ?_
  have hcongr : ∀ j ∈ List.range xs.length,
      (runSched (fun i =>
          match (fun x => Except.ok (ε := Err) (enh x)) (xs.getD i 0) with
          | .ok v => v | .error _ => 0)
        (sched ++ List.range xs.length) (fun _ => none) j).getD 0
      = enh (xs.getD j 0) := by
    intro j hj
    rw [runSched_eq]
    have : j ∈ sched ++ List.range xs.length := List.mem_append_right _ hj
    simp [this]
  rw [List.map_congr_left hcongr, range_map_getD]

lemma poolMap_ok_length {f : Frame → Except Err Frame} {xs ys : List Frame}
    {sched : List Nat} (h : poolMap f xs sched = .ok ys) :
    ys.length = xs.length := by
  unfold poolMap at h
  cases hfs : xs.findSome? fun x => match f x with | .error e => some e | .ok _ => none with
  | some e => rw [hfs] at h; simp at h
  | none =>
    rw [hfs] at h
    simp only [Except.ok.injEq] at h
    rw [← h]
    simp

lemma poolMap_error {f : Frame → Except Err Frame} {xs : List Frame}
    {x : Frame} (sched : List Nat) (hx : x ∈ xs) {e : Err} (he : f x = .error e) :
    ∃ e', poolMap f xs sched = .error e' := by
  unfold poolMap
  cases hfs : xs.findSome? fun x => match f x with | .error e => some e | .ok _ => none with
  | some e' => exact ⟨e', rfl⟩
  | none =>
    have := List.findSome?_eq_none_iff.mp hfs x hx
    rw [he] at this
    simp at this

lemma video_second_ok_length {n : Nat} {pre : Frame → Frame}
    {enhance : Frame → Except Err Frame} {sched : List Nat}
    {s : List Frame} {batch : FrameBatch} {rest : List Frame}
    (h : video_second n pre enhance sched s = .ok (batch, rest)) :
    batch.length = n := by
  unfold video_second at h
  cases htf : takeFrames n s with
  | error e => rw [htf] at h; simp at h
  | ok pr =>
    obtain ⟨raw, rest0⟩ := pr
    rw [htf] at h
    simp only at h
    cases hpm : poolMap enhance (raw.map pre) sched with
    | error e => rw [hpm] at h; simp at h
    | ok b =>
      rw [hpm] at h
      simp only [Except.ok.injEq, Prod.mk.injEq] at h
      obtain ⟨rfl, rfl⟩ := h
      have hlen := poolMap_ok_length hpm
      have := (takeFrames_eq_ok htf).2.2
      simpa [this] using hlen

lemma video_second_order {n : Nat} {pre : Frame → Frame} {enh : Frame → Frame}
    {sched : List Nat} {s : List Frame} {batch : FrameBatch} {rest : List Frame}
    (h : video_second n pre (fun x => .ok (enh x)) sched s = .ok (batch, rest)) :
    batch = (s.take n).map (fun f => enh (pre f)) := by
  unfold video_second at h
  cases htf : takeFrames n s with
  | error e => rw [htf] at h; simp at h
  | ok pr =>
    obtain ⟨raw, rest0⟩ := pr
    rw [htf] at h
    simp only at h
    rw [poolMap_total] at h
    simp only [Except.ok.injEq, Prod.mk.injEq] at h
    obtain ⟨rfl, rfl⟩ := h
    obtain ⟨rfl, -, -⟩ := takeFrames_eq_ok htf
    simp [List.map_map, Function.comp_def]

lemma fetch_video_ok {nF : Nat} {pre : Frame → Frame}
    {enhance : Frame → Except Err Frame} {sched : List Nat}
    {src src' : SourceState} {qs qs' : Queues} {evs : List Ev}
    (h : fetch_video nF pre enhance sched src qs = .ok (src', qs', evs)) :
    evs = [Ev.putAudio, Ev.putVideo] ∧
    qs'.audioQ.length = qs.audioQ.length + 1 ∧
    qs'.videoQ.length = qs.videoQ.length + 1 := by
  unfold fetch_video at h
  cases hna : nextAudio src.audioStream with
  | error e => rw [hna] at h; simp at h
  | ok pa =>
    obtain ⟨audio, arest⟩ := pa
    rw [hna] at h
    cases hvs : video_second nF pre enhance sched src.videoStream with
    | error e => rw [hvs] at h; simp at h
    | ok pv =>
      obtain ⟨batch, vrest⟩ := pv
      rw [hvs] at h
      simp only [Except.ok.injEq, Prod.mk.injEq] at h
      obtain ⟨-, rfl, rfl⟩ := h
      simp

lemma fetch_video_enh_fail {nF : Nat} {pre : Frame → Frame}
    {enhance : Frame → Except Err Frame} {sched : List Nat}
    {src : SourceState} {qs : Queues} {x : Frame} {e : Err}
    (hx : x ∈ src.videoStream.take nF) (he : enhance (pre x) = .error e) :
    ∃ e', fetch_video nF pre enhance sched src qs = .error e' := by
  unfold fetch_video
  cases hna : nextAudio src.audioStream with
  | error e0 => exact ⟨e0, rfl⟩
  | ok pa =>
    obtain ⟨audio, arest⟩ := pa
    cases hvs : video_second nF pre enhance sched src.videoStream with
    | error e0 => exact ⟨e0, rfl⟩
    | ok pv =>
      obtain ⟨batch, vrest⟩ := pv
      exfalso
      unfold video_second at hvs
      cases htf : takeFrames nF src.videoStream with
      | error e0 => rw [htf] at hvs; simp at hvs
      | ok pr =>
        obtain ⟨raw, rest0⟩ := pr
        rw [htf] at hvs
        simp only at hvs
        obtain ⟨hraw, -, -⟩ := takeFrames_eq_ok htf
        have hmem : pre x ∈ raw.map pre := by
          subst hraw
          exact List.mem_map_of_mem pre hx
        obtain ⟨e', hpm⟩ := poolMap_error sched hmem he
        rw [hpm] at hvs
        simp at hvs

lemma producerLoop_traces_shape {nF : Nat} {pre : Frame → Frame}
    {enhance : Frame → Except Err Frame} :
    ∀ (n : Nat) (scheds : Nat → List Nat) (src : SourceState) (qs : Queues),
    ∀ t ∈ (producerLoop nF pre enhance scheds n src qs).1,
      t = [Ev.putAudio, Ev.putVideo] := by
  intro n
  induction n with
  | zero => intro scheds src qs t ht; simp [producerLoop] at ht
  | succ n ih =>
    intro scheds src qs t ht
    simp only [producerLoop] at ht
    cases hfv : fetch_video nF pre enhance (scheds 0) src qs with
    | error e => rw [hfv] at ht; simp at ht
    | ok out =>
      obtain ⟨src', qs', evs⟩ := out
      rw [hfv] at ht
      simp only [List.mem_cons] at ht
      cases ht with
      | inl h => rw [h]; exact (fetch_video_ok hfv).1
      | inr h => exact ih _ src' qs' t h

lemma producerLoop_ok_length {nF : Nat} {pre : Frame → Frame}
    {enhance : Frame → Except Err Frame} :
    ∀ (n : Nat) (scheds : Nat → List Nat) (src : SourceState) (qs : Queues)
      (out : SourceState × Queues),
    (producerLoop nF pre enhance scheds n src qs).2 = .ok out →
    (producerLoop nF pre enhance scheds n src qs).1.length = n := by
  intro n
  induction n with
  | zero => intro scheds src qs out _; simp [producerLoop]
  | succ n ih =>
    intro scheds src qs out hok
    simp only [producerLoop] at hok ⊢
    cases hfv : fetch_video nF pre enhance (scheds 0) src qs with
    | error e => rw [hfv] at hok; simp at hok
    | ok o =>
      obtain ⟨src', qs', evs⟩ := o
      rw [hfv] at hok
      simp only at hok ⊢
      rw [List.length_cons]
      exact congrArg Nat.succ (ih _ src' qs' out hok)

lemma producerLoop_queue_growth {nF : Nat} {pre : Frame → Frame}
    {enhance : Frame → Except Err Frame} :
    ∀ (n : Nat) (scheds : Nat → List Nat) (src : SourceState) (qs : Queues)
      (srcF : SourceState) (qsF : Queues),
    (producerLoop nF pre enhance scheds n src qs).2 = .ok (srcF, qsF) →
    qsF.audioQ.length = qs.audioQ.length + n ∧
    qsF.videoQ.length = qs.videoQ.length + n := by
  intro n
  induction n with
  | zero =>
    intro scheds src qs srcF qsF hok
    simp only [producerLoop, Except.ok.injEq, Prod.mk.injEq] at hok
    obtain ⟨-, rfl⟩ := hok
    simp
  | succ n ih =>
    intro scheds src qs srcF qsF hok
    simp only [producerLoop] at hok
    cases hfv : fetch_video nF pre enhance (scheds 0) src qs with
    | error e => rw [hfv] at hok; simp at hok
    | ok o =>
      obtain ⟨src', qs', evs⟩ := o
      rw [hfv] at hok
      simp only at hok
      obtain ⟨-, h2, h3⟩ := fetch_video_ok hfv
      obtain ⟨g2, g3⟩ := ih _ src' qs' srcF qsF hok
      constructor <;> omega

lemma flatten_count_mono :
    ∀ (traces : List (List Ev)),
    (∀ t ∈ traces, t = [Ev.putAudio, Ev.putVideo]) →
    ∀ (p s : List Ev), p ++ s = traces.flatten →
    p.count Ev.putVideo ≤ p.count Ev.putAudio := by
  intro traces
  induction traces with
  | nil =>
    intro _ p s hps
    have : p = [] := by
      have := List.append_eq_nil.mp (by simpa using hps)
      exact this.1
    simp [this]
  | cons t rest ih =>
    intro hsh p s hps
    have ht : t = [Ev.putAudio, Ev.putVideo] := hsh t (by simp)
    subst ht
    rw [List.flatten_cons] at hps
    match p with
    | [] => simp
    | e1 :: p1 =>
      simp only [List.cons_append, List.cons.injEq] at hps
      obtain ⟨rfl, hps⟩ := hps
      match p1 with
      | [] => simp [List.count_cons]
      | e2 :: p2 =>
        simp only [List.cons_append, List.cons.injEq] at hps
        obtain ⟨rfl, hps⟩ := hps
        have := ih (fun u hu => hsh u (by simp [hu])) p2 s hps
        simp [List.count_cons]
        omega

/-- The inductive invariant of the threshold-gated consumer system. -/
def ConsInv (s : ConsState) : Prop :=
  s.depth + s.dequeues = s.produced ∧
  s.pending + s.writes ≤ s.dequeues ∧
  (s.draining = true → BUFFER_SIZE ≤ s.produced) ∧
  (0 < s.dequeues → BUFFER_SIZE ≤ s.produced)

lemma reach_consInv {s : ConsState} (h : Reach s) : ConsInv s := by
  induction h with
  | init => exact ⟨rfl, le_refl _, by simp [consInit], by simp [consInit]⟩
  | step hr hstep ih =>
    cases hstep with
    | produce =>
      simp only [ConsInv] at ih ⊢
      obtain ⟨i1, i2, i3, i4⟩ := ih
      exact ⟨by omega, i2, fun hd => by have := i3 hd; omega,
        fun hq => by have := i4 hq; omega⟩
    | passGate hd hq =>
      simp only [ConsInv] at ih ⊢
      obtain ⟨i1, i2, i3, i4⟩ := ih
      exact ⟨i1, i2, fun _ => by omega, i4⟩
    | dequeue hd hq =>
      simp only [ConsInv] at ih ⊢
      obtain ⟨i1, i2, i3, i4⟩ := ih
      exact ⟨by omega, by omega, i3, fun _ => i3 hd⟩
    | write hp =>
      simp only [ConsInv] at ih ⊢
      obtain ⟨i1, i2, i3, i4⟩ := ih
      exact ⟨i1, by omega, i3, i4⟩

/-- Extract the payload of a non-timeout `get` result. -/
def GetRes.payload {α : Type} : GetRes α → Option α
  | .item a => some a
  | .timeout => none

lemma consumeLoop_until_timeout {α β : Type} (sink : α → β) :
    ∀ (pre post : List (GetRes α)),
    (∀ g ∈ pre, g ≠ GetRes.timeout) →
    consumeLoop sink (pre ++ GetRes.timeout :: post) =
      ((pre.filterMap GetRes.payload).map sink, some Err.queueEmpty) := by
  intro pre
  induction pre with
  | nil => intro post _; rfl
  | cons g pre ih =>
    intro post hng
    match g with
    | .timeout => exact absurd rfl (hng _ (by simp))
    | .item a =>
      simp only [List.cons_append, consumeLoop, List.append_eq]
      rw [ih post (fun u hu => hng u (by simp [hu]))]
      simp [GetRes.payload]

/-! ### Claim theorems -/

/-- C1: for every playback session that completes, `Player.run` drives the
producer for exactly `floor(duration_seconds)` iterations, and each
iteration enqueues exactly one AudioChunk onto the audio queue and exactly
one FrameBatch onto the video queue (each iteration trace is exactly
`[putAudio, putVideo]`, and each queue grows by exactly one item per
iteration). -/
theorem producer_iterations_and_enqueues
    (fps duration : ℚ) (pre : Frame → Frame)
    (enhance : Frame → Except Err Frame) (scheds : Nat → List Nat)
    (src : SourceState) (qs : Queues) (r0 : RunCtl)
    (srcF : SourceState) (qsF : Queues)
    (hd : 0 ≤ duration)
    (hok : (Player.run fps duration pre enhance scheds src qs r0).outcome
      = .ok (srcF, qsF)) :
    (Player.run fps duration pre enhance scheds src qs r0).traces.length
      = (⌊duration⌋).toNat ∧
    (∀ t ∈ (Player.run fps duration pre enhance scheds src qs r0).traces,
      t = [Ev.putAudio, Ev.putVideo]) ∧
    qsF.audioQ.length = qs.audioQ.length + (⌊duration⌋).toNat ∧
    qsF.videoQ.length = qs.videoQ.length + (⌊duration⌋).toNat := by
  have hiter : runIterations duration = (⌊duration⌋).toNat := by
    simp [runIterations, pyInt, hd]
  simp only [Player.run] at hok ⊢
  rw [hiter] at hok ⊢
  refine ⟨producerLoop_ok_length _ _ _ _ _ hok, producerLoop_traces_shape _ _ _ _, ?_, ?_⟩
  · exact (producerLoop_queue_growth _ _ _ _ _ _ hok).1
  · exact (producerLoop_queue_growth _ _ _ _ _ _ hok).2

/-- Closed witness for C1: a 3.5-second, 2-fps session with a sufficient
source runs exactly 3 producer iterations, each enqueuing one chunk and one
batch. -/
theorem producer_iterations_and_enqueues_witness :
    (0:ℚ) ≤ 7/2 ∧
    (Player.run 2 (7/2) id (fun f => .ok f) (fun _ => [])
        ⟨[⟨.float32, [1]⟩, ⟨.float32, [2]⟩, ⟨.float32, [3]⟩], [0,1,2,3,4,5]⟩
        ⟨[], []⟩ ⟨false, 0⟩).traces.length = (⌊(7/2 : ℚ)⌋).toNat := by
  have hfb : framesPerBatch 2 = 2 := by
    have h2 : ⌊(2:ℚ)⌋ = 2 := by norm_num
    simp only [framesPerBatch, pyInt]
    rw [if_pos (by norm_num : (0:ℚ) ≤ 2), h2]
    rfl
  have hit : runIterations (7/2) = 3 := by
    have h3 : ⌊(7/2:ℚ)⌋ = 3 := by norm_num
    simp only [runIterations, pyInt]
    rw [if_pos (by norm_num : (0:ℚ) ≤ 7/2), h3]
    rfl
  have hok : (Player.run 2 (7/2) id (fun f => .ok f) (fun _ => [])
      ⟨[⟨.float32, [1]⟩, ⟨.float32, [2]⟩, ⟨.float32, [3]⟩], [0,1,2,3,4,5]⟩
      ⟨[], []⟩ ⟨false, 0⟩).outcome
      = .ok (⟨[], []⟩,
             ⟨[⟨.float32, [1]⟩, ⟨.float32, [2]⟩, ⟨.float32, [3]⟩],
              [[0,1],[2,3],[4,5]]⟩) := by
    simp only [Player.run, hfb, hit]
    rfl
  exact ⟨by norm_num,
    (producer_iterations_and_enqueues 2 (7/2) id (fun f => .ok f) (fun _ => [])
      _ _ _ _ _ (by norm_num) hok).1⟩

/-- C10: within every producer iteration the AudioChunk is enqueued
strictly before the FrameBatch of the same second (each iteration trace is
`[putAudio, putVideo]`), so along the producer's enqueue sequence every
initial segment contains at least as many audio enqueues as video
enqueues. -/
theorem audio_enqueue_precedes_video
    (fps duration : ℚ) (pre : Frame → Frame)
    (enhance : Frame → Except Err Frame) (scheds : Nat → List Nat)
    (src : SourceState) (qs : Queues) (r0 : RunCtl)
    (p tail : List Ev)
    (hps : p ++ tail
      = (Player.run fps duration pre enhance scheds src qs r0).traces.flatten) :
    (∀ t ∈ (Player.run fps duration pre enhance scheds src qs r0).traces,
      t = [Ev.putAudio, Ev.putVideo]) ∧
    p.count Ev.putVideo ≤ p.count Ev.putAudio := by
  simp only [Player.run] at hps ⊢
  refine ⟨producerLoop_traces_shape _ _ _ _, ?_⟩
  exact flatten_count_mono _ (producerLoop_traces_shape _ _ _ _) p tail hps

/-- Closed witness for C10: in a concrete 3-iteration session, the initial
segment `[putAudio]` of the enqueue sequence has one audio enqueue and no
video enqueue. -/
theorem audio_enqueue_precedes_video_witness :
    ([Ev.putAudio] ++ [Ev.putVideo, Ev.putAudio, Ev.putVideo, Ev.putAudio, Ev.putVideo]
      = (Player.run 2 (7/2) id (fun f => .ok f) (fun _ => [])
          ⟨[⟨.float32, [1]⟩, ⟨.float32, [2]⟩, ⟨.float32, [3]⟩], [0,1,2,3,4,5]⟩
          ⟨[], []⟩ ⟨false, 0⟩).traces.flatten) ∧
    ([Ev.putAudio].count Ev.putVideo ≤ [Ev.putAudio].count Ev.putAudio) := by
  have hfb : framesPerBatch 2 = 2 := by
    have h2 : ⌊(2:ℚ)⌋ = 2 := by norm_num
    simp only [framesPerBatch, pyInt]
    rw [if_pos (by norm_num : (0:ℚ) ≤ 2), h2]
    rfl
  have hit : runIterations (7/2) = 3 := by
    have h3 : ⌊(7/2:ℚ)⌋ = 3 := by norm_num
    simp only [runIterations, pyInt]
    rw [if_pos (by norm_num : (0:ℚ) ≤ 7/2), h3]
    rfl
  have hps : [Ev.putAudio] ++ [Ev.putVideo, Ev.putAudio, Ev.putVideo, Ev.putAudio, Ev.putVideo]
      = (Player.run 2 (7/2) id (fun f => .ok f) (fun _ => [])
          ⟨[⟨.float32, [1]⟩, ⟨.float32, [2]⟩, ⟨.float32, [3]⟩], [0,1,2,3,4,5]⟩
          ⟨[], []⟩ ⟨false, 0⟩).traces.flatten := by
    simp only [Player.run, hfb, hit]
    rfl
  exact ⟨hps,
    (audio_enqueue_precedes_video 2 (7/2) id (fun f => .ok f) (fun _ => [])
      _ _ _ _ _ hps).2⟩

/-- C8: the run flag is a single lock-guarded boolean. Starting `run()`
from the initial state (`running = False` set in `__init__`) flips it to
true with exactly one actual assignment; the second guarded set at the end
of `run()` is a no-op on the same state; the guarded set is idempotent, a
guarded set on an already-true flag changes nothing, and no operation ever
sets the flag back to false (`guardedSet` is the only write to `running` in
the program, and it is monotone). -/
theorem runState_transitions_once :
    (∀ (fps duration : ℚ) (pre : Frame → Frame)
       (enhance : Frame → Except Err Frame) (scheds : Nat → List Nat)
       (src : SourceState) (qs : Queues),
      (Player.run fps duration pre enhance scheds src qs ⟨false, 0⟩).afterFirstSet
        = ⟨true, 1⟩ ∧
      (Player.run fps duration pre enhance scheds src qs ⟨false, 0⟩).afterSecondSet
        = ⟨true, 1⟩) ∧
    (∀ k : Nat, guardedSet ⟨false, k⟩ = ⟨true, k + 1⟩) ∧
    (∀ r : RunCtl, r.running = true → guardedSet r = r) ∧
    (∀ r : RunCtl, guardedSet (guardedSet r) = guardedSet r) ∧
    (∀ r : RunCtl, r.running = true → (guardedSet r).running = true) := by
  refine ⟨fun _ _ _ _ _ _ _ => ⟨rfl, rfl⟩, fun k => rfl, ?_, ?_, ?_⟩
  · intro r hr
    simp [guardedSet, hr]
  · intro r
    by_cases hr : r.running
    · simp [guardedSet, hr]
    · simp [guardedSet, hr]
  · intro r hr
    simp [guardedSet, hr]

/-- Closed witness for C8: a guarded set on an already-running state is a
no-op. -/
theorem runState_transitions_once_witness :
    guardedSet ⟨true, 1⟩ = ⟨true, 1⟩ :=
  runState_transitions_once.2.2.1 ⟨true, 1⟩ rfl

/-- C2: under any interleaving, the consumer never dequeues from its queue
nor writes to its sink before the queue has seen `BUFFER_SIZE = 8` enqueues:
every reachable state in which a dequeue or a sink write has happened has at
least 8 producer enqueues. The same transition system describes both the
audio and the video consumer. -/
theorem consumer_waits_for_threshold (s : ConsState) (h : Reach s)
    (hact : 0 < s.dequeues ∨ 0 < s.writes) :
    BUFFER_SIZE ≤ s.produced ∧ BUFFER_SIZE = 8 := by
  obtain ⟨i1, i2, i3, i4⟩ := reach_consInv h
  refine ⟨?_, rfl⟩
  cases hact with
  | inl hdq => exact i4 hdq
  | inr hw => exact i4 (by omega)

/-- Closed witness for C2: a concrete reachable state (8 enqueues, gate
passed, one dequeue, one write) satisfies the bound. -/
theorem consumer_waits_for_threshold_witness :
    0 < (ConsState.mk 8 7 true 0 1 1).writes ∧
    BUFFER_SIZE ≤ (ConsState.mk 8 7 true 0 1 1).produced := by
  have h0 : Reach consInit := Reach.init
  have h1 : Reach ⟨1, 1, false, 0, 0, 0⟩ := Reach.step h0 (CStep.produce _)
  have h2 : Reach ⟨2, 2, false, 0, 0, 0⟩ := Reach.step h1 (CStep.produce _)
  have h3 : Reach ⟨3, 3, false, 0, 0, 0⟩ := Reach.step h2 (CStep.produce _)
  have h4 : Reach ⟨4, 4, false, 0, 0, 0⟩ := Reach.step h3 (CStep.produce _)
  have h5 : Reach ⟨5, 5, false, 0, 0, 0⟩ := Reach.step h4 (CStep.produce _)
  have h6 : Reach ⟨6, 6, false, 0, 0, 0⟩ := Reach.step h5 (CStep.produce _)
  have h7 : Reach ⟨7, 7, false, 0, 0, 0⟩ := Reach.step h6 (CStep.produce _)
  have h8 : Reach ⟨8, 8, false, 0, 0, 0⟩ := Reach.step h7 (CStep.produce _)
  have h9 : Reach ⟨8, 8, true, 0, 0, 0⟩ :=
    Reach.step h8 (CStep.passGate _ rfl (by decide))
  have h10 : Reach ⟨8, 7, true, 1, 1, 0⟩ :=
    Reach.step h9 (CStep.dequeue _ rfl (by decide))
  have h11 : Reach ⟨8, 7, true, 0, 1, 1⟩ :=
    Reach.step h10 (CStep.write _ (by decide))
  exact ⟨by decide,
    (consumer_waits_for_threshold _ h11 (Or.inr (by decide))).1⟩

/-- C3: for every FrameBatch that `video_second` returns, the output order
equals the input order of that second's frames, for every worker-pool
completion order `sched`: the batch is exactly the input window mapped
through preprocessing and enhancement, so the i-th output frame is the
enhancement of the i-th input frame. -/
theorem batch_order_preserved (n : Nat) (pre enh : Frame → Frame)
    (sched : List Nat) (s : List Frame) (batch : FrameBatch) (rest : List Frame)
    (h : video_second n pre (fun x => .ok (enh x)) sched s = .ok (batch, rest)) :
    batch = (s.take n).map (fun f => enh (pre f)) :=
  video_second_order h

/-- Closed witness for C3: with the scrambled completion order `[2,0,1]`,
the batch still comes out in input order. -/
theorem batch_order_preserved_witness :
    video_second 3 id (fun x => Except.ok (x + 10)) [2, 0, 1] [1, 2, 3, 4]
      = .ok ([11, 12, 13], [4]) ∧
    ([11, 12, 13] : FrameBatch) = ([1, 2, 3, 4].take 3).map (fun f => id f + 10) := by
  refine ⟨by rfl, ?_⟩
  exact batch_order_preserved 3 id (fun x => x + 10) [2, 0, 1] [1, 2, 3, 4]
    [11, 12, 13] [4] (by rfl)

/-- C4: every FrameBatch that `video_second` returns holds exactly
`int(fps)` frames — there is no shorter final batch: when fewer than
`int(fps)` frames remain, `video_second` raises (the `next` call propagates
`StopIteration`) instead of returning a partial batch. -/
theorem batch_size_is_int_fps (fps : ℚ) (pre : Frame → Frame)
    (enhance : Frame → Except Err Frame) :
    (∀ (sched : List Nat) (s : List Frame) (batch : FrameBatch) (rest : List Frame),
      video_second (framesPerBatch fps) pre enhance sched s = .ok (batch, rest) →
      batch.length = framesPerBatch fps) ∧
    (∀ (sched : List Nat) (s : List Frame),
      s.length < framesPerBatch fps →
      ∀ out, video_second (framesPerBatch fps) pre enhance sched s ≠ .ok out) := by
  constructor
  · intro sched s batch rest h
    exact video_second_ok_length h
  · intro sched s hshort out h
    unfold video_second at h
    rw [takeFrames_short hshort] at h
    simp at h

/-- Closed witness for C4: at `fps = 5/2` (`int(fps) = 2`), a produced batch
has exactly 2 frames. -/
theorem batch_size_is_int_fps_witness :
    ([5, 6] : FrameBatch).length = framesPerBatch (5/2) ∧
    video_second (framesPerBatch (5/2)) id Except.ok [] [5, 6, 7]
      = .ok ([5, 6], [7]) := by
  have hfb : framesPerBatch (5/2) = 2 := by
    have h2 : ⌊(5/2:ℚ)⌋ = 2 := by norm_num
    simp only [framesPerBatch, pyInt]
    rw [if_pos (by norm_num : (0:ℚ) ≤ 5/2), h2]
    rfl
  have hov : video_second (framesPerBatch (5/2)) id Except.ok [] [5, 6, 7]
      = .ok ([5, 6], [7]) := by
    rw [hfb]
    rfl
  exact ⟨(batch_size_is_int_fps (5/2) id Except.ok).1 [] [5, 6, 7] [5, 6] [7] hov, hov⟩

/-- C5: if the enhancement stage fails on any frame of the current second's
window, `fetch_video` raises before reaching either `queue.put`, so no
frame of that batch is enqueued on the video queue (and hence none can
reach the VideoSink, which only receives batches dequeued from that
queue). -/
theorem enhancement_failure_blocks_batch (nF : Nat) (pre : Frame → Frame)
    (enhance : Frame → Except Err Frame) (sched : List Nat)
    (src : SourceState) (qs : Queues) (x : Frame) (e : Err)
    (hx : x ∈ src.videoStream.take nF) (he : enhance (pre x) = .error e) :
    (∃ e2, fetch_video nF pre enhance sched src qs = .error e2) ∧
    (∀ out, fetch_video nF pre enhance sched src qs ≠ .ok out) := by
  obtain ⟨e2, herr⟩ := fetch_video_enh_fail hx he
  refine ⟨⟨e2, herr⟩, ?_⟩
  intro out hok
  rw [herr] at hok
  simp at hok

/-- Closed witness for C5: a concrete failing frame (frame 1 of a 2-frame
window) makes `fetch_video` raise rather than enqueue. -/
theorem enhancement_failure_blocks_batch_witness :
    (1 : Frame) ∈ ([0, 1, 2] : List Frame).take 2 ∧
    (fun f : Frame => if f = 1 then Except.error (ε := Err) Err.inferenceError
        else Except.ok f) (id 1) = .error Err.inferenceError ∧
    ∀ out, fetch_video 2 id
      (fun f : Frame => if f = 1 then Except.error Err.inferenceError else Except.ok f)
      [] ⟨[⟨.float32, [1]⟩], [0, 1, 2]⟩ ⟨[], []⟩ ≠ .ok out := by
  refine ⟨by decide, by rfl, ?_⟩
  exact (enhancement_failure_blocks_batch 2 id
    (fun f : Frame => if f = 1 then Except.error Err.inferenceError else Except.ok f)
    [] ⟨[⟨.float32, [1]⟩], [0, 1, 2]⟩ ⟨[], []⟩ 1 Err.inferenceError
    (by decide) (by rfl)).2

/-- C6 counterexample: the claim "the AudioConsumer writes each chunk to the
audio sink exactly as received, with no format conversion" fails on the
code: `write_audio_stream` executes
`self.stream.write(audio.astype("float32").tostring())`, so a chunk whose
samples are not already float32 (moviepy chunks are float64) is converted
before being written — the written data differs from the chunk as
received. -/
theorem audio_passthrough_counterexample :
    ¬ (audioWrite ⟨.float64, [0]⟩ = ⟨.float64, [0]⟩) := by
  decide

/-- C6 (amended): the AudioConsumer writes each dequeued chunk's samples in
order, with no resampling (the sample sequence is unchanged), but it first
casts the chunk to float32 (`astype("float32")`); only a chunk already in
float32 is written exactly as received. -/
theorem audio_write_no_resample_casts_float32 (a : AudioChunk) :
    (audioWrite a).samples = a.samples ∧
    (audioWrite a).dtype = .float32 ∧
    (a.dtype = .float32 → audioWrite a = a) := by
  refine ⟨rfl, rfl, ?_⟩
  intro h
  cases a with
  | mk d s =>
    cases h
    rfl

/-- Closed witness for amended C6: a float32 chunk passes through
unchanged. -/
theorem audio_write_no_resample_casts_float32_witness :
    (AudioChunk.mk .float32 [1, 2]).dtype = .float32 ∧
    audioWrite ⟨.float32, [1, 2]⟩ = ⟨.float32, [1, 2]⟩ :=
  ⟨rfl, (audio_write_no_resample_casts_float32 ⟨.float32, [1, 2]⟩).2.2 rfl⟩

/-- C7: the video consumer sleeps, after presenting each frame and before
the next, for exactly `(1000/fps − tolerance)/1000` seconds with the fixed
`tolerance = 2.25` set in `__init__`; the interval is the same constant for
every frame of every batch (it is a function of `fps` and `tolerance` only,
with no elapsed-time input). -/
theorem video_pacing_fixed_interval (fps : ℚ) (transform : Frame → Frame)
    (batch : FrameBatch) :
    playerTolerance = 2.25 ∧
    displayBatch fps playerTolerance transform batch
      = batch.flatMap (fun f =>
          [VEv.present (transform f), VEv.sleep ((1000 / fps - 2.25) / 1000)]) ∧
    (∀ d : ℚ, VEv.sleep d ∈ displayBatch fps playerTolerance transform batch →
      d = (1000 / fps - 2.25) / 1000) := by
  refine ⟨rfl, rfl, ?_⟩
  intro d hd
  simp only [displayBatch, List.mem_flatMap, List.mem_cons,
    List.not_mem_nil, or_false] at hd
  obtain ⟨f, -, hf⟩ := hd
  cases hf with
  | inl h => exact absurd h (by simp)
  | inr h =>
    have hdi := (VEv.sleep.injEq _ _).mp h.symm
    rw [← hdi]
    rfl

/-- Closed witness for C7: at `fps = 10` the single sleep of a one-frame
batch equals `(1000/10 − 2.25)/1000`. -/
theorem video_pacing_fixed_interval_witness :
    VEv.sleep (frameInterval 10 playerTolerance)
      ∈ displayBatch 10 playerTolerance id [0] ∧
    frameInterval 10 playerTolerance = (1000 / (10:ℚ) - 2.25) / 1000 := by
  have hmem : VEv.sleep (frameInterval 10 playerTolerance)
      ∈ displayBatch 10 playerTolerance id [0] := by
    simp [displayBatch]
  exact ⟨hmem, (video_pacing_fixed_interval 10 id [0]).2.2 _ hmem⟩

/-- C9: each consumer's dequeue is `queue.get(timeout=10)` — it blocks for
at most the 10-second timeout argument — and a timeout raises `queue.Empty`,
which the consumer loop does not catch (its bare `except ... : raise`
re-raises): the loop stops at the first timeout, writes nothing further,
performs no retry, and the error propagates out, terminating the consumer
thread. -/
theorem consumer_timeout_is_fatal :
    audioGetTimeout = 10 ∧ videoGetTimeout = 10 ∧
    ∀ (α β : Type) (sink : α → β) (gets post : List (GetRes α)),
      (∀ g ∈ gets, g ≠ GetRes.timeout) →
      consumeLoop sink (gets ++ GetRes.timeout :: post) =
        ((gets.filterMap GetRes.payload).map sink, some Err.queueEmpty) :=
  ⟨rfl, rfl, fun _ _ sink gets post h => consumeLoop_until_timeout sink gets post h⟩

/-- Closed witness for C9: a concrete consumer run writes the one chunk
received before the timeout, then fails with `queue.Empty`; the chunk after
the timeout is never processed. -/
theorem consumer_timeout_is_fatal_witness :
    consumeLoop audioWrite
      [GetRes.item ⟨.float64, [3]⟩, GetRes.timeout, GetRes.item ⟨.float32, [4]⟩]
      = ([⟨.float32, [3]⟩], some Err.queueEmpty) := by
  have h := consumer_timeout_is_fatal.2.2 AudioChunk AudioChunk audioWrite
    [GetRes.item ⟨.float64, [3]⟩] [GetRes.item ⟨.float32, [4]⟩] (by decide)
  simpa [GetRes.payload, audioWrite, astype_float32] using h
